import Mathlib

/-! Knob bridge firmware (`Firmware/knobs.cpp`)

A shallow embedding of the firmware that samples three potentiometers,
normalizes them and emits them as CAN frames, followed by theorems about
the normalizer, the `every` timer helper and the frame codec.

Machine integers are `Nat`/`Int` values; every conversion the C++ code
performs is written out as a reduction modulo `2 ^ width`
(`toU8`, `toU16`, `toU32`, `toI32`).  Arrays of `knobCount` elements are
functions on `Fin 3`, the payload of a CAN message is a function on `Fin 8`.
-/

namespace Knobs

/-! ## Machine integer conversions -/

/-- Conversion to `uint8_t`: the value modulo `2 ^ 8`. -/
def toU8 (x : Int) : Nat := (x % 256).toNat

/-- Conversion to `uint16_t`: the value modulo `2 ^ 16`. -/
def toU16 (x : Int) : Nat := (x % 65536).toNat

/-- Conversion to `uint32_t`: the value modulo `2 ^ 32`. -/
def toU32 (x : Int) : Nat := (x % 4294967296).toNat

/-- Conversion to `int32_t` (also the width of `int` on the target):
two's complement wrap-around into `[-2 ^ 31, 2 ^ 31)`. -/
def toI32 (x : Int) : Int := (x + 2147483648) % 4294967296 - 2147483648

/-- Number of bits of `unsigned long` on the target (32-bit ARM). -/
def ulongBits : Nat := 32

/-! ## Globals (lines 25-35) -/

/-- The constant `knobCount`. -/
def knobCount : Nat := 3

/-- The constant `knob100Percent`: 100% on the fixed-point percent scale. -/
def knob100Percent : Nat := 32768

/-- The constant `pedalPositionMin`. -/
def pedalPositionMin : Nat := 0x28

/-- Modelled from the spec: the type `CANMessage`, declared in the platform
header `application.h`, which is not part of the sources.  A frame is an
identifier, a payload length and a buffer of 8 payload bytes; a
default-constructed message has all of them zero. -/
structure CANMessage where
  id : Nat
  len : Nat
  data : Fin 8 → Nat

/-- The default-constructed `CANMessage`. -/
def CANMessage.empty : CANMessage := { id := 0, len := 0, data := fun _ => 0 }

/-- The four instantiations of the template `every`, one per call site
(each lambda has its own type, hence its own function-local `static last`). -/
inductive Timer where
  | printKnobs
  | engine
  | knobStatus
  | pedalRequest
  deriving DecidableEq, Repr

/-- The mutable globals of the program together with the function-local
static `last` of every instantiation of `every`. -/
structure State where
  knobValueRaw : Fin 3 → Nat
  knobValueLow : Fin 3 → Nat
  knobValueHigh : Fin 3 → Nat
  knobPercent : Fin 3 → Nat
  pedalPosition : Nat
  engineSpeedMessage : CANMessage
  vehicleSpeedMessage : CANMessage
  engineTemperatureMessage : CANMessage
  last : Timer → Nat

/-- The state given by the initializers of the globals. -/
def initialState : State :=
  { knobValueRaw := fun _ => 0
    knobValueLow := fun _ => 30
    knobValueHigh := fun _ => 4060
    knobPercent := fun _ => 0
    pedalPosition := 0
    engineSpeedMessage := CANMessage.empty
    vehicleSpeedMessage := CANMessage.empty
    engineTemperatureMessage := CANMessage.empty
    last := fun _ => 0 }

/-! ## `every` (lines 40-47) -/

/-- Unsigned subtraction on `w`-bit values: the difference modulo `2 ^ w`. -/
def subUnsigned (w a b : Nat) : Nat := (((a : Int) - (b : Int)) % (2 : Int) ^ w).toNat

/-- The timer step of `every` on `w`-bit `unsigned long` values.
`last` is the static variable, `now` the value `millis()` returns in the
condition and `nowStore` the value it returns in the assignment
`last = millis()`.  The result is whether `fn` is run and the new value of
`last`. -/
def every (w intervalMillis last now nowStore : Nat) : Bool × Nat :=
  if subUnsigned w now last > intervalMillis then (true, nowStore) else (false, last)

/-- One call `every(intervalMillis, fn)` at the call site `t`: the timer step
on the slot of `t`, then `fn` when the timer fired.  `clock` holds the two
readings of `millis()`. -/
def runEvery {α : Type} (t : Timer) (intervalMillis : Nat) (clock : Nat × Nat)
    (fn : State → State × List α) (s : State) : State × List α :=
  let r := every ulongBits intervalMillis (s.last t) clock.1 clock.2
  let s1 := { s with last := Function.update s.last t r.2 }
  if r.1 then fn s1 else (s1, [])

/-! ## Sampling and normalization (lines 75-102) -/

/-- The function `readKnob`, with `sample` the value returned by `analogRead`. -/
def readKnob (i : Fin 3) (sample : Int) (s : State) : State :=
  { s with knobValueRaw := Function.update s.knobValueRaw i (toU16 sample) }

/-- The local `range` of `normalizeKnob` (line 91): the operands are promoted
to `int`, the difference is converted to `uint16_t`. -/
def knobRange (low high : Nat) : Nat := toU16 (toI32 ((high : Int) - (low : Int)))

/-- The local `percent` of `normalizeKnob` (line 92), an `int32_t`; `none` when
`range` is zero (division by zero). -/
def knobPercentWide (raw low high : Nat) : Option Int :=
  let range := knobRange low high
  if range = 0 then none
  else some (toI32 (Int.tdiv
    (toI32 (toI32 (toI32 ((raw : Int) - (low : Int))) * (knob100Percent : Int))) (range : Int)))

/-- The clamping expression of line 93, before it is stored in a `uint16_t`. -/
def clampPercent (percent : Int) : Int :=
  if percent < 0 then 0
  else if percent > (knob100Percent : Int) then (knob100Percent : Int) else percent

/-- The value `normalizeKnob` stores in `knobPercent[i]`, as a function of the
raw sample and the calibration pair. -/
def normalizedPercent (raw low high : Nat) : Option Nat :=
  (knobPercentWide raw low high).map fun percent => toU16 (clampPercent percent)

/-- The function `normalizeKnob`. -/
def normalizeKnob (i : Fin 3) (s : State) : Option State :=
  (normalizedPercent (s.knobValueRaw i) (s.knobValueLow i) (s.knobValueHigh i)).map
    fun p => { s with knobPercent := Function.update s.knobPercent i p }

/-- The function `readKnobs`, with `samples` the values returned by `analogRead`
for the three pins. -/
def readKnobs (samples : Fin 3 → Int) (s : State) : Option State :=
  (normalizeKnob 0 (readKnob 0 (samples 0) s)).bind fun s0 =>
  (normalizeKnob 1 (readKnob 1 (samples 1) s0)).bind fun s1 =>
  normalizeKnob 2 (readKnob 2 (samples 2) s1)

/-- The value of the return expression of `percentToByte` before its
conversion to `uint8_t`. -/
def percentToByteWide (percent : Nat) : Nat :=
  if percent ≥ knob100Percent then 255 else percent / (knob100Percent / 256)

/-- The function `percentToByte`. -/
def percentToByte (percent : Nat) : Nat := toU8 (percentToByteWide percent)

/-- The function `printKnobs`; the output is the colour passed to `RGB.color`. -/
def printKnobs (clock : Nat × Nat) (s : State) : State × List (Nat × Nat × Nat) :=
  runEvery Timer.printKnobs 200 clock
    (fun st => (st, [(percentToByte (st.knobPercent 0), percentToByte (st.knobPercent 1),
      percentToByte (st.knobPercent 2))])) s

/-! ## `transmitCAN` (lines 119-178) -/

/-- The global `engineSpeedMessage` after lines 124-130. -/
def engineSpeedFrame (s : State) : CANMessage :=
  { id := 0x0C9
    len := 8
    data := Function.update s.engineSpeedMessage.data 1
      (if s.pedalPosition > 0 then s.pedalPosition
       else toU8 (Int.tdiv (s.knobPercent 0 : Int) 256)) }

/-- The local `vehicleSpeed` (line 136). -/
def vehicleSpeed (s : State) : Nat := toU16 (Int.tdiv (s.knobPercent 1 : Int) 2)

/-- The global `vehicleSpeedMessage` after lines 134-138. -/
def vehicleSpeedFrame (s : State) : CANMessage :=
  { id := 0x3E9
    len := 8
    data := Function.update
      (Function.update s.vehicleSpeedMessage.data 0 (toU8 ((vehicleSpeed s >>> 8 : Nat) : Int)))
      1 (toU8 ((vehicleSpeed s &&& 0xFF : Nat) : Int)) }

/-- The constant `tmin`. -/
def tmin : Nat := 0x57

/-- The constant `tmax`. -/
def tmax : Nat := 0xAA

/-- The value of line 146 before the cast to `uint8_t`: the product, the
quotient and the sum are computed on `uint32_t`. -/
def engineTemperatureWide (percent : Nat) : Nat :=
  let span := toU32 (toI32 ((tmax : Int) - (tmin : Int)))
  let product := toU32 ((toU32 (percent : Int) * span : Nat) : Int)
  let quotient := product / toU32 (knob100Percent : Int)
  toU32 ((quotient + toU32 (tmin : Int) : Nat) : Int)

/-- The local `engineTemperature` (line 146). -/
def engineTemperature (s : State) : Nat := toU8 (engineTemperatureWide (s.knobPercent 2) : Int)

/-- The global `engineTemperatureMessage` after lines 142-147. -/
def engineTemperatureFrame (s : State) : CANMessage :=
  { id := 0x4C1
    len := 8
    data := Function.update s.engineTemperatureMessage.data 2 (engineTemperature s) }

/-- The body of the lambda passed to `every(2, ...)`: the three global messages
are updated and transmitted in this order. -/
def engineTask (s : State) : State × List CANMessage :=
  ({ s with
      engineSpeedMessage := engineSpeedFrame s
      vehicleSpeedMessage := vehicleSpeedFrame s
      engineTemperatureMessage := engineTemperatureFrame s },
   [engineSpeedFrame s, vehicleSpeedFrame s, engineTemperatureFrame s])

/-- The message built by the lambda passed to `every(10, ...)`. -/
def knobStatusFrame (s : State) : CANMessage :=
  { id := 0x123
    len := 3
    data := Function.update (Function.update (Function.update CANMessage.empty.data
      0 (percentToByte (s.knobPercent 0)))
      1 (percentToByte (s.knobPercent 1)))
      2 (percentToByte (s.knobPercent 2)) }

/-- The message built by the lambda passed to `every(100, ...)`. -/
def pedalRequestFrame : CANMessage :=
  { id := 0x7E0
    len := 3
    data := Function.update (Function.update (Function.update CANMessage.empty.data
      0 0x02) 1 0x01) 2 0x49 }

/-- The function `transmitCAN`: `clock t` holds the readings of `millis()` at
the call site `t`; the output is the list of transmitted messages. -/
def transmitCAN (clock : Timer → Nat × Nat) (s : State) : State × List CANMessage :=
  let r1 := runEvery Timer.engine 2 (clock Timer.engine) engineTask s
  let r2 := runEvery Timer.knobStatus 10 (clock Timer.knobStatus)
    (fun st => (st, [knobStatusFrame st])) r1.1
  let r3 := runEvery Timer.pedalRequest 100 (clock Timer.pedalRequest)
    (fun st => (st, [pedalRequestFrame])) r2.1
  (r3.1, r1.2 ++ r2.2 ++ r3.2)

/-! ## `applicationCanReceiver` (lines 180-196) -/

/-- The value assigned to `pedalPosition` at line 194 for the byte `pos`. -/
def pedalOverride (pos : Nat) : Nat :=
  if pos > pedalPositionMin then toU8 (toI32 ((pos : Int) - (pedalPositionMin : Int))) else 0

/-- The function `applicationCanReceiver`. -/
def applicationCanReceiver (message : CANMessage) (s : State) : State :=
  let s1 :=
    if message.id = 0x0C9 then
      { s with engineSpeedMessage := { s.engineSpeedMessage with data := message.data } }
    else s
  if message.id = 0x7E8 then
    { s1 with pedalPosition := pedalOverride (toU8 (message.data 3 : Int)) }
  else s1

/-! ## Runs of the program -/

/-- One operation of the program other than the decoding of an inbound frame
with id `0x7E8`: decoding another frame, sampling or normalizing a knob,
`printKnobs`, `transmitCAN`. -/
inductive QuietStep : State → State → Prop
  | receive (message : CANMessage) (s : State) (h : message.id ≠ 0x7E8) :
      QuietStep s (applicationCanReceiver message s)
  | sample (i : Fin 3) (sample : Int) (s : State) : QuietStep s (readKnob i sample s)
  | normalize (i : Fin 3) (s s' : State) (h : normalizeKnob i s = some s') : QuietStep s s'
  | print (clock : Nat × Nat) (s : State) : QuietStep s (printKnobs clock s).1
  | transmit (clock : Timer → Nat × Nat) (s : State) : QuietStep s (transmitCAN clock s).1

/-- The state `s'` is reached from `s` by operations none of which decodes a
frame with id `0x7E8`. -/
def QuietRun (s s' : State) : Prop := Relation.ReflTransGen QuietStep s s'

/-- An inbound frame (length 8) with id `0x7E8` whose byte 3 is `pos`. -/
def pedalResponse (pos : Nat) : CANMessage :=
  { id := 0x7E8, len := 8, data := Function.update CANMessage.empty.data 3 pos }

/-- An inbound frame with id `0x7E8` and length 2: only bytes 0 and 1 are payload,
the rest of the buffer is zero. -/
def shortPedalResponse : CANMessage :=
  { id := 0x7E8, len := 2, data := Function.update (Function.update CANMessage.empty.data
      0 0x04) 1 0x41 }

/-- One operation of the program other than the decoding of an inbound frame
with id `0x0C9`: decoding another frame, sampling or normalizing a knob,
`printKnobs`, `transmitCAN`. -/
inductive MirrorStep : State → State → Prop
  | receive (message : CANMessage) (s : State) (h : message.id ≠ 0x0C9) :
      MirrorStep s (applicationCanReceiver message s)
  | sample (i : Fin 3) (sample : Int) (s : State) : MirrorStep s (readKnob i sample s)
  | normalize (i : Fin 3) (s s' : State) (h : normalizeKnob i s = some s') : MirrorStep s s'
  | print (clock : Nat × Nat) (s : State) : MirrorStep s (printKnobs clock s).1
  | transmit (clock : Timer → Nat × Nat) (s : State) : MirrorStep s (transmitCAN clock s).1

/-- The state `s'` is reached from `s` by operations none of which decodes a
frame with id `0x0C9`. -/
def MirrorRun (s s' : State) : Prop := Relation.ReflTransGen MirrorStep s s'

/-- An inbound frame with id `0x0C9`, length 8 and payload `p`. -/
def engineSpeedInbound (p : Fin 8 → Nat) : CANMessage := { id := 0x0C9, len := 8, data := p }

/-! ## Runs of one timer -/

/-- The clock readings of a run of one timer, in the order in which they are
taken: each call of `every` contributes the reading of its condition and the
reading of its assignment. -/
def flattenReadings : List (Nat × Nat) → List Nat
  | [] => []
  | c :: rest => c.1 :: c.2 :: flattenReadings rest

/-- The readings (of the condition) at which the task runs when `every` is
called once for each element of the list, starting with the static `last`. -/
def firings (w intervalMillis : Nat) : Nat → List (Nat × Nat) → List Nat
  | _, [] => []
  | last, c :: rest =>
    if (every w intervalMillis last c.1 c.2).1 then
      c.1 :: firings w intervalMillis (every w intervalMillis last c.1 c.2).2 rest
    else firings w intervalMillis (every w intervalMillis last c.1 c.2).2 rest

/-- The values of the static `last` after each call of the same run. -/
def lastValues (w intervalMillis : Nat) : Nat → List (Nat × Nat) → List Nat
  | _, [] => []
  | last, c :: rest =>
    (every w intervalMillis last c.1 c.2).2 ::
      lastValues w intervalMillis (every w intervalMillis last c.1 c.2).2 rest

/-! ## The normalizer over unbounded integers -/

/-- The normalizer as the specification words it, over unbounded integers:
`(raw - low) * fullScale / (high - low)`, truncated, then clamped to
`[0, fullScale]` with `fullScale = 32768`. -/
def normalizeSpec (raw low high : Int) : Int :=
  max 0 (min 32768 (Int.tdiv ((raw - low) * 32768) (high - low)))

/-! ## The end-to-end scenario -/

/-- The raw samples `{30, 2045, 4060}` of the three channels. -/
def scenarioSamples : Fin 3 → Int := fun i => if i = 0 then 30 else if i = 1 then 2045 else 4060

/-- The channel percents `{0, 16384, 32768}`. -/
def scenarioPercents : Fin 3 → Nat := fun i => if i = 0 then 0 else if i = 1 then 16384 else 32768

/-! ## Auxiliary facts about the machine conversions -/

theorem toI32_of_fits (x : Int) (h1 : -2147483648 ≤ x) (h2 : x < 2147483648) : toI32 x = x := by
  unfold toI32; omega

theorem toU16_of_fits (x : Int) (h1 : 0 ≤ x) (h2 : x < 65536) : (toU16 x : Int) = x := by
  unfold toU16; omega

theorem toU8_of_fits (x : Int) (h1 : 0 ≤ x) (h2 : x < 256) : (toU8 x : Int) = x := by
  unfold toU8; omega

theorem toU16_lt (x : Int) : toU16 x < 65536 := by
  unfold toU16; omega

theorem toU8_lt (x : Int) : toU8 x < 256 := by
  unfold toU8; omega

/-- Truncating division by a non-negative divisor, on a negative dividend. -/
theorem tdiv_of_neg (a d : Int) (ha : a < 0) (hd : 0 ≤ d) : Int.tdiv a d = -((-a) / d) := by
  have h : Int.tdiv a d = -(Int.tdiv (-a) d) := by
    rw [Int.neg_tdiv, Int.neg_neg]
  rw [h, Int.tdiv_eq_ediv (by omega) hd]

/-- Truncating division by a positive divisor is monotone in the dividend. -/
theorem tdiv_mono (a b d : Int) (hd : 0 < d) (hab : a ≤ b) : Int.tdiv a d ≤ Int.tdiv b d := by
  rcases lt_or_le a 0 with ha | ha
  · rcases lt_or_le b 0 with hb | hb
    · rw [tdiv_of_neg a d ha hd.le, tdiv_of_neg b d hb hd.le]
      have := Int.ediv_le_ediv hd (show -b ≤ -a by omega)
      omega
    · rw [tdiv_of_neg a d ha hd.le, Int.tdiv_eq_ediv hb hd.le]
      have h1 : 0 ≤ (-a) / d := Int.ediv_nonneg (by omega) hd.le
      have h2 : 0 ≤ b / d := Int.ediv_nonneg hb hd.le
      omega
  · rw [Int.tdiv_eq_ediv ha hd.le, Int.tdiv_eq_ediv (by omega) hd.le]
    exact Int.ediv_le_ediv hd hab

/-- Truncating division by a positive divisor does not increase the magnitude. -/
theorem tdiv_abs_le (a d : Int) (hd : 0 < d) : -|a| ≤ Int.tdiv a d ∧ Int.tdiv a d ≤ |a| := by
  rcases lt_or_le a 0 with ha | ha
  · rw [tdiv_of_neg a d ha hd.le, abs_of_neg ha]
    have h1 : 0 ≤ (-a) / d := Int.ediv_nonneg (by omega) hd.le
    have h2 : (-a) / d ≤ -a := Int.ediv_le_self d (by omega)
    omega
  · rw [Int.tdiv_eq_ediv ha hd.le, abs_of_nonneg ha]
    have h1 : 0 ≤ a / d := Int.ediv_nonneg ha hd.le
    have h2 : a / d ≤ a := Int.ediv_le_self d ha
    omega

theorem knobRange_of_lt (low high : Nat) (hhigh : high < 65536) (hcal : low < high) :
    knobRange low high = high - low := by
  unfold knobRange
  rw [toI32_of_fits _ (by omega) (by omega)]
  have := toU16_of_fits ((high : Int) - (low : Int)) (by omega) (by omega)
  omega

/-- With 16-bit operands and `low < high` no conversion in the computation of
`percent` changes a value: the result is the truncated quotient over the
integers. -/
theorem knobPercentWide_exact (raw low high : Nat) (hraw : raw < 65536) (hhigh : high < 65536)
    (hcal : low < high) :
    knobPercentWide raw low high
      = some (Int.tdiv (((raw : Int) - (low : Int)) * 32768) ((high : Int) - (low : Int))) := by
  have hr := knobRange_of_lt low high hhigh hcal
  have hd : ((high - low : Nat) : Int) = (high : Int) - (low : Int) := by omega
  unfold knobPercentWide
  simp only [hr, knob100Percent]
  rw [if_neg (by omega), hd]
  rw [toI32_of_fits ((raw : Int) - (low : Int)) (by omega) (by omega)]
  rw [toI32_of_fits ((raw : Int) - (low : Int)) (by omega) (by omega)]
  have hp : toI32 (((raw : Int) - (low : Int)) * ((32768 : Nat) : Int))
      = ((raw : Int) - (low : Int)) * 32768 := by
    rw [toI32_of_fits _ (by push_cast; omega) (by push_cast; omega)]
    push_cast; rfl
  rw [hp]
  have hb := tdiv_abs_le (((raw : Int) - (low : Int)) * 32768) ((high : Int) - (low : Int))
    (by omega)
  have habs : |((raw : Int) - (low : Int)) * 32768| ≤ 2147450880 := by
    rw [abs_le]; constructor <;> omega
  rw [toI32_of_fits _ (by omega) (by omega)]

theorem clampPercent_bounds (percent : Int) :
    0 ≤ clampPercent percent ∧ clampPercent percent ≤ 32768 := by
  unfold clampPercent knob100Percent
  split_ifs <;> constructor <;> push_cast at * <;> omega

theorem clampPercent_mono (p q : Int) (h : p ≤ q) : clampPercent p ≤ clampPercent q := by
  unfold clampPercent knob100Percent
  split_ifs <;> push_cast at * <;> omega

/-- The value stored by `normalizeKnob`, for 16-bit operands with `low < high`. -/
theorem normalizedPercent_exact (raw low high : Nat) (hraw : raw < 65536) (hhigh : high < 65536)
    (hcal : low < high) :
    ∃ p : Nat, normalizedPercent raw low high = some p ∧
      (p : Int) = clampPercent
        (Int.tdiv (((raw : Int) - (low : Int)) * 32768) ((high : Int) - (low : Int))) := by
  refine ⟨toU16 (clampPercent
    (Int.tdiv (((raw : Int) - (low : Int)) * 32768) ((high : Int) - (low : Int)))), ?_, ?_⟩
  · unfold normalizedPercent
    rw [knobPercentWide_exact raw low high hraw hhigh hcal]
    rfl
  · have hb := clampPercent_bounds
      (Int.tdiv (((raw : Int) - (low : Int)) * 32768) ((high : Int) - (low : Int)))
    exact toU16_of_fits _ hb.1 (by omega)

/-- The state produced by `normalizeKnob` when the stored value is known. -/
theorem normalizeKnob_of_percent (s : State) (i : Fin 3) (p : Nat)
    (h : normalizedPercent (s.knobValueRaw i) (s.knobValueLow i) (s.knobValueHigh i) = some p) :
    ∃ s', normalizeKnob i s = some s' ∧ s'.knobPercent i = p := by
  refine ⟨{ s with knobPercent := Function.update s.knobPercent i p }, ?_, ?_⟩
  · unfold normalizeKnob
    rw [h]
    rfl
  · simp

/-! ## The signal normalizer -/

/-- C1: for 16-bit raw sample and calibration with `low < high`, `normalizeKnob`
returns and the percent it stores lies between 0 and 32768 (`knob100Percent`),
wherever the raw sample lies: it is the clamped 32-bit value, which the
conversion to 16 bits leaves unchanged. -/
theorem normalizeKnob_percent_in_range (s : State) (i : Fin 3)
    (hraw : s.knobValueRaw i < 65536) (hhigh : s.knobValueHigh i < 65536)
    (hcal : s.knobValueLow i < s.knobValueHigh i) :
    ∃ s' percent, normalizeKnob i s = some s' ∧
      knobPercentWide (s.knobValueRaw i) (s.knobValueLow i) (s.knobValueHigh i) = some percent ∧
      (s'.knobPercent i : Int) = clampPercent percent ∧
      0 ≤ clampPercent percent ∧ clampPercent percent ≤ 32768 ∧
      0 ≤ s'.knobPercent i ∧ s'.knobPercent i ≤ knob100Percent := by
  obtain ⟨p, hp, hval⟩ := normalizedPercent_exact _ _ _ hraw hhigh hcal
  obtain ⟨s', hs', hk⟩ := normalizeKnob_of_percent s i p hp
  have hb := clampPercent_bounds (Int.tdiv
    (((s.knobValueRaw i : Int) - (s.knobValueLow i : Int)) * 32768)
    ((s.knobValueHigh i : Int) - (s.knobValueLow i : Int)))
  refine ⟨s', _, hs', knobPercentWide_exact _ _ _ hraw hhigh hcal, ?_, hb.1, hb.2,
    Nat.zero_le _, ?_⟩
  · rw [hk]; exact hval
  · unfold knob100Percent; omega

/-- Witness of C1 at a raw sample above the calibration range. -/
theorem normalizeKnob_percent_in_range_witness :
    ∃ s' percent, normalizeKnob 0 (readKnob 0 5000 initialState) = some s' ∧
      knobPercentWide ((readKnob 0 5000 initialState).knobValueRaw 0)
        ((readKnob 0 5000 initialState).knobValueLow 0)
        ((readKnob 0 5000 initialState).knobValueHigh 0) = some percent ∧
      (s'.knobPercent 0 : Int) = clampPercent percent ∧
      0 ≤ clampPercent percent ∧ clampPercent percent ≤ 32768 ∧
      0 ≤ s'.knobPercent 0 ∧ s'.knobPercent 0 ≤ knob100Percent :=
  normalizeKnob_percent_in_range (readKnob 0 5000 initialState) 0
    (by decide) (by decide) (by decide)

/-- C2: for a 16-bit calibration with `low < high`, `normalizeKnob` stores 0 for
every raw sample `raw ≤ low` and 32768 for every 16-bit raw sample `raw ≥ high`. -/
theorem normalizeKnob_saturates (s : State) (i : Fin 3)
    (hraw : s.knobValueRaw i < 65536) (hhigh : s.knobValueHigh i < 65536)
    (hcal : s.knobValueLow i < s.knobValueHigh i) :
    (s.knobValueRaw i ≤ s.knobValueLow i →
      ∃ s', normalizeKnob i s = some s' ∧ s'.knobPercent i = 0) ∧
    (s.knobValueHigh i ≤ s.knobValueRaw i →
      ∃ s', normalizeKnob i s = some s' ∧ s'.knobPercent i = 32768) := by
  obtain ⟨p, hp, hval⟩ := normalizedPercent_exact _ _ _ hraw hhigh hcal
  obtain ⟨s', hs', hk⟩ := normalizeKnob_of_percent s i p hp
  have hd : (0 : Int) < (s.knobValueHigh i : Int) - (s.knobValueLow i : Int) := by omega
  constructor
  · intro hle
    refine ⟨s', hs', ?_⟩
    have h0 := tdiv_mono (((s.knobValueRaw i : Int) - (s.knobValueLow i : Int)) * 32768) 0 _ hd
      (by omega)
    rw [Int.zero_tdiv] at h0
    have hc := clampPercent_mono _ _ h0
    have hb := clampPercent_bounds (Int.tdiv
      (((s.knobValueRaw i : Int) - (s.knobValueLow i : Int)) * 32768)
      ((s.knobValueHigh i : Int) - (s.knobValueLow i : Int)))
    have hz : clampPercent 0 = 0 := by decide
    omega
  · intro hge
    refine ⟨s', hs', ?_⟩
    have h1 := tdiv_mono
      (32768 * ((s.knobValueHigh i : Int) - (s.knobValueLow i : Int)))
      (((s.knobValueRaw i : Int) - (s.knobValueLow i : Int)) * 32768) _ hd (by omega)
    rw [Int.mul_tdiv_cancel _ (by omega)] at h1
    have hc := clampPercent_mono _ _ h1
    have hb := clampPercent_bounds (Int.tdiv
      (((s.knobValueRaw i : Int) - (s.knobValueLow i : Int)) * 32768)
      ((s.knobValueHigh i : Int) - (s.knobValueLow i : Int)))
    have hz : clampPercent 32768 = 32768 := by decide
    omega

/-- Witness of C2 at the two ends of the default calibration range. -/
theorem normalizeKnob_saturates_witness :
    (∃ s', normalizeKnob 0 (readKnob 0 30 initialState) = some s' ∧ s'.knobPercent 0 = 0) ∧
    (∃ s', normalizeKnob 0 (readKnob 0 4060 initialState) = some s' ∧
      s'.knobPercent 0 = 32768) :=
  ⟨(normalizeKnob_saturates (readKnob 0 30 initialState) 0
      (by decide) (by decide) (by decide)).1 (by decide),
   (normalizeKnob_saturates (readKnob 0 4060 initialState) 0
      (by decide) (by decide) (by decide)).2 (by decide)⟩

/-- C3: `normalizeKnob` is monotonic non-decreasing in the raw sample: with a
16-bit calibration of channel `i` with `low < high`, sampling `raw1` and then
normalizing stores a percent that is at most the one stored after sampling
`raw2`, for all 16-bit `raw1 ≤ raw2`. -/
theorem normalizeKnob_monotone (s : State) (i : Fin 3) (raw1 raw2 : Nat)
    (h12 : raw1 ≤ raw2) (h2 : raw2 < 65536) (hhigh : s.knobValueHigh i < 65536)
    (hcal : s.knobValueLow i < s.knobValueHigh i) :
    ∃ s1 s2, normalizeKnob i (readKnob i (raw1 : Int) s) = some s1 ∧
      normalizeKnob i (readKnob i (raw2 : Int) s) = some s2 ∧
      s1.knobPercent i ≤ s2.knobPercent i := by
  have hr : ∀ raw : Nat, raw < 65536 → (readKnob i (raw : Int) s).knobValueRaw i = raw := by
    intro raw hlt
    have := toU16_of_fits (raw : Int) (by omega) (by omega)
    simp only [readKnob, Function.update_same]
    omega
  obtain ⟨p1, hp1, hv1⟩ := normalizedPercent_exact raw1 _ _ (by omega) hhigh hcal
  obtain ⟨p2, hp2, hv2⟩ := normalizedPercent_exact raw2 _ _ h2 hhigh hcal
  obtain ⟨s1, hs1, hk1⟩ := normalizeKnob_of_percent (readKnob i (raw1 : Int) s) i p1
    (by rw [hr raw1 (by omega)]; exact hp1)
  obtain ⟨s2, hs2, hk2⟩ := normalizeKnob_of_percent (readKnob i (raw2 : Int) s) i p2
    (by rw [hr raw2 h2]; exact hp2)
  refine ⟨s1, s2, hs1, hs2, ?_⟩
  have hm := clampPercent_mono _ _ (tdiv_mono
    (((raw1 : Int) - (s.knobValueLow i : Int)) * 32768)
    (((raw2 : Int) - (s.knobValueLow i : Int)) * 32768)
    ((s.knobValueHigh i : Int) - (s.knobValueLow i : Int)) (by omega) (by omega))
  omega

/-- Witness of C3 on channel 1 with the default calibration. -/
theorem normalizeKnob_monotone_witness :
    ∃ s1 s2, normalizeKnob 1 (readKnob 1 ((1000 : Nat) : Int) initialState) = some s1 ∧
      normalizeKnob 1 (readKnob 1 ((3000 : Nat) : Int) initialState) = some s2 ∧
      s1.knobPercent 1 ≤ s2.knobPercent 1 :=
  normalizeKnob_monotone initialState 1 1000 3000 (by decide) (by decide) (by decide) (by decide)

/-! ## The `every` timer helper -/

/-- Unsigned subtraction of `w`-bit values, by cases on the order of the operands. -/
theorem subUnsigned_eq (w a b : Nat) (ha : a < 2 ^ w) (hb : b < 2 ^ w) :
    subUnsigned w a b = if b ≤ a then a - b else a + 2 ^ w - b := by
  unfold subUnsigned
  have hM : ((2 : Int) ^ w) = ((2 ^ w : Nat) : Int) := by push_cast; rfl
  rw [hM]
  generalize 2 ^ w = M at *
  split_ifs with h
  · rw [Int.emod_eq_of_lt (by omega) (by omega)]; omega
  · rw [← Int.add_emod_self, Int.emod_eq_of_lt (by omega) (by omega)]; omega

/-- C4: as a step on `(last, now, intervalMillis)` with `w`-bit clock values,
`every` runs its task exactly when the unsigned difference `now - last` exceeds
`intervalMillis`; it then sets `last` to `now`, and otherwise leaves `last`
unchanged.  With `last = 0` it fires exactly when `now > intervalMillis`.  The
decision does not depend on the second reading of `millis()`, which is the
value stored. -/
theorem every_fires_iff (w intervalMillis last now : Nat) (hlast : last < 2 ^ w)
    (hnow : now < 2 ^ w) :
    ((every w intervalMillis last now now).1 = true ↔
      (last ≤ now ∧ now - last > intervalMillis) ∨
      (now < last ∧ now + 2 ^ w - last > intervalMillis)) ∧
    ((every w intervalMillis last now now).1 = true →
      (every w intervalMillis last now now).2 = now) ∧
    ((every w intervalMillis last now now).1 = false →
      (every w intervalMillis last now now).2 = last) ∧
    ((every w intervalMillis 0 now now).1 = true ↔ now > intervalMillis) ∧
    (∀ nowStore, (every w intervalMillis last now nowStore).1
        = (every w intervalMillis last now now).1 ∧
      ((every w intervalMillis last now nowStore).1 = true →
        (every w intervalMillis last now nowStore).2 = nowStore)) := by
  have hsub := subUnsigned_eq w now last hnow hlast
  have hsub0 := subUnsigned_eq w now 0 hnow (by positivity)
  simp only [Nat.zero_le, if_true, Nat.sub_zero] at hsub0
  unfold every
  rw [hsub0, hsub]
  refine ⟨?_, ?_, ?_, ?_, ?_⟩
  · split_ifs with h1 h2 <;> simp <;> omega
  · split_ifs <;> simp
  · split_ifs <;> simp
  · split_ifs <;> simp <;> omega
  · intro nowStore
    split_ifs <;> simp

/-- Witness of C4 on the 32-bit clock, at a reading taken after wrap-around. -/
theorem every_fires_iff_witness :
    (every 32 2 4294967295 5 5).1 = true ∧ (every 32 2 4294967295 5 5).2 = 5 :=
  ⟨(every_fires_iff 32 2 4294967295 5 (by decide) (by decide)).1.mpr
      (Or.inr (by decide)),
   (every_fires_iff 32 2 4294967295 5 (by decide) (by decide)).2.1
      ((every_fires_iff 32 2 4294967295 5 (by decide) (by decide)).1.mpr
        (Or.inr (by decide)))⟩

/-! ## Invariants of runs without a pedal response -/

theorem runEvery_preserves {α : Type} (t : Timer) (intervalMillis : Nat) (clock : Nat × Nat)
    (fn : State → State × List α) (s : State)
    (hfn : ∀ st, (fn st).1.pedalPosition = st.pedalPosition ∧
      (fn st).1.knobPercent = st.knobPercent) :
    (runEvery t intervalMillis clock fn s).1.pedalPosition = s.pedalPosition ∧
      (runEvery t intervalMillis clock fn s).1.knobPercent = s.knobPercent := by
  unfold runEvery
  simp only
  split_ifs
  · exact hfn _
  · exact ⟨rfl, rfl⟩

theorem printKnobs_preserves (clock : Nat × Nat) (s : State) :
    (printKnobs clock s).1.pedalPosition = s.pedalPosition ∧
      (printKnobs clock s).1.knobPercent = s.knobPercent :=
  runEvery_preserves _ _ _ _ s (fun _ => ⟨rfl, rfl⟩)

theorem transmitCAN_preserves (clock : Timer → Nat × Nat) (s : State) :
    (transmitCAN clock s).1.pedalPosition = s.pedalPosition ∧
      (transmitCAN clock s).1.knobPercent = s.knobPercent := by
  unfold transmitCAN
  simp only
  have h1 := runEvery_preserves Timer.engine 2 (clock Timer.engine) engineTask s
    (fun _ => ⟨rfl, rfl⟩)
  have h2 := runEvery_preserves Timer.knobStatus 10 (clock Timer.knobStatus)
    (fun st => (st, [knobStatusFrame st]))
    (runEvery Timer.engine 2 (clock Timer.engine) engineTask s).1 (fun _ => ⟨rfl, rfl⟩)
  have h3 := runEvery_preserves Timer.pedalRequest 100 (clock Timer.pedalRequest)
    (fun st => (st, [pedalRequestFrame]))
    (runEvery Timer.knobStatus 10 (clock Timer.knobStatus)
      (fun st => (st, [knobStatusFrame st]))
      (runEvery Timer.engine 2 (clock Timer.engine) engineTask s).1).1 (fun _ => ⟨rfl, rfl⟩)
  exact ⟨h3.1.trans (h2.1.trans h1.1), h3.2.trans (h2.2.trans h1.2)⟩

/-- Decoding a frame whose id is not `0x7E8` changes neither the pedal position
nor the percents. -/
theorem applicationCanReceiver_other (message : CANMessage) (s : State)
    (h : message.id ≠ 0x7E8) :
    (applicationCanReceiver message s).pedalPosition = s.pedalPosition ∧
      (applicationCanReceiver message s).knobPercent = s.knobPercent := by
  unfold applicationCanReceiver
  simp only [if_neg h]
  split_ifs <;> exact ⟨rfl, rfl⟩

/-- Decoding a frame with id `0x7E8` rewrites the pedal position only. -/
theorem applicationCanReceiver_pedal (message : CANMessage) (s : State)
    (h : message.id = 0x7E8) :
    applicationCanReceiver message s
      = { s with pedalPosition := pedalOverride (toU8 (message.data 3 : Int)) } := by
  unfold applicationCanReceiver
  have h9 : message.id ≠ 0x0C9 := by omega
  simp only [if_neg h9, if_pos h]

/-- The value of line 194 for a byte. -/
theorem pedalOverride_byte (v : Nat) (hv : v < 256) :
    pedalOverride (toU8 (v : Int)) = if v > 0x28 then v - 0x28 else 0 := by
  have h1 : toU8 (v : Int) = v := by
    have := toU8_of_fits (v : Int) (by omega) (by omega)
    omega
  rw [h1]
  unfold pedalOverride pedalPositionMin
  split_ifs with h
  · rw [toI32_of_fits _ (by omega) (by omega)]
    have := toU8_of_fits ((v : Int) - ((0x28 : Nat) : Int)) (by omega) (by omega)
    omega
  · rfl

theorem quietStep_preserves {s s' : State} (h : QuietStep s s') :
    s'.pedalPosition = s.pedalPosition ∧
      ((∀ i, s.knobPercent i < 65536) → ∀ i, s'.knobPercent i < 65536) := by
  cases h with
  | receive message _ hid =>
    have := applicationCanReceiver_other message s hid
    exact ⟨this.1, fun hk i => by rw [this.2]; exact hk i⟩
  | sample i sample _ => exact ⟨rfl, fun hk => hk⟩
  | normalize i _ _ hn =>
    unfold normalizeKnob normalizedPercent at hn
    cases hw : knobPercentWide (s.knobValueRaw i) (s.knobValueLow i) (s.knobValueHigh i) with
    | none => rw [hw] at hn; simp at hn
    | some percent =>
      rw [hw] at hn
      simp only [Option.map_some', Option.some.injEq] at hn
      subst hn
      refine ⟨rfl, fun hk j => ?_⟩
      by_cases hj : j = i
      · subst hj
        simp only [Function.update_same]
        exact toU16_lt _
      · simp only [Function.update_noteq hj]
        exact hk j
  | print clock _ =>
    have := printKnobs_preserves clock s
    exact ⟨this.1, fun hk i => by rw [this.2]; exact hk i⟩
  | transmit clock _ =>
    have := transmitCAN_preserves clock s
    exact ⟨this.1, fun hk i => by rw [this.2]; exact hk i⟩

theorem quietRun_preserves {s s' : State} (h : QuietRun s s') :
    s'.pedalPosition = s.pedalPosition ∧
      ((∀ i, s.knobPercent i < 65536) → ∀ i, s'.knobPercent i < 65536) := by
  unfold QuietRun at h
  induction h with
  | refl => exact ⟨rfl, fun hk => hk⟩
  | tail _ hstep ih =>
    have := quietStep_preserves hstep
    exact ⟨this.1.trans ih.1, fun hk => this.2 (ih.2 hk)⟩

/-- Byte 1 of the EngineSpeed frame, for a 16-bit percent of channel 0. -/
theorem engineSpeedFrame_byte1 (s : State) (hp : s.knobPercent 0 < 65536) :
    (engineSpeedFrame s).data 1
      = if s.pedalPosition > 0 then s.pedalPosition else s.knobPercent 0 / 256 := by
  unfold engineSpeedFrame
  simp only [Function.update_same]
  split_ifs
  · rfl
  · rw [Int.tdiv_eq_ediv (by omega) (by omega)]
    have := toU8_of_fits ((s.knobPercent 0 : Int) / 256) (by omega) (by omega)
    omega

/-! ## The pedal override and the EngineSpeed frame -/

/-- C5, counterexample: channel 0 is sampled at the top of its range (percent
32768), then a frame with id `0x7E8` and byte 3 equal to `0x28` is decoded.  The
override value computed from the frame is 0, but the EngineSpeed frame
transmitted next carries byte 1 = 128, the simulated value. -/
theorem engineSpeed_override_zero_counterexample :
    (pedalResponse 0x28).id = 0x7E8 ∧
    (if (pedalResponse 0x28).data 3 > 0x28 then (pedalResponse 0x28).data 3 - 0x28 else 0) = 0 ∧
    (normalizeKnob 0 (readKnob 0 4060 initialState)).map
      (fun s => ((engineTask (applicationCanReceiver (pedalResponse 0x28) s)).2.map
        (fun f => (f.id, f.data 1))).head?) = some (some (0x0C9, 128)) := by
  decide

/-- C5, amended: after a frame with id `0x7E8` has been decoded and no other
such frame since, the EngineSpeed frame (id `0x0C9`, length 8, transmitted first
by the 2 ms task) has byte 1 equal to `byte3 - 0x28` when byte 3 of that frame
exceeds `0x28`; when byte 3 is `0x28` or less, byte 1 is the simulated value
`channel0.percent / 256`. -/
theorem engineSpeed_after_pedal_response (s0 : State) (message : CANMessage) (s : State)
    (hid : message.id = 0x7E8) (hbyte : message.data 3 < 256)
    (hrun : QuietRun (applicationCanReceiver message s0) s)
    (hp : s.knobPercent 0 < 65536) :
    ∃ f rest, (engineTask s).2 = f :: rest ∧ f.id = 0x0C9 ∧ f.len = 8 ∧
      f.data 1 = if message.data 3 > 0x28 then message.data 3 - 0x28
        else s.knobPercent 0 / 256 := by
  refine ⟨engineSpeedFrame s, _, rfl, rfl, rfl, ?_⟩
  have hpos : s.pedalPosition = if message.data 3 > 0x28 then message.data 3 - 0x28 else 0 := by
    rw [(quietRun_preserves hrun).1, applicationCanReceiver_pedal message s0 hid]
    exact pedalOverride_byte _ hbyte
  rw [engineSpeedFrame_byte1 s hp, hpos]
  split_ifs <;> first | rfl | omega

/-- Witness of the amended C5: a response with byte 3 = `0x50`, followed by the
decoding of an unrelated frame. -/
theorem engineSpeed_after_pedal_response_witness :
    ∃ f rest, (engineTask (applicationCanReceiver pedalRequestFrame
        (applicationCanReceiver (pedalResponse 0x50) initialState))).2 = f :: rest ∧
      f.id = 0x0C9 ∧ f.len = 8 ∧
      f.data 1 = if (pedalResponse 0x50).data 3 > 0x28 then (pedalResponse 0x50).data 3 - 0x28
        else (applicationCanReceiver pedalRequestFrame
          (applicationCanReceiver (pedalResponse 0x50) initialState)).knobPercent 0 / 256 :=
  engineSpeed_after_pedal_response initialState (pedalResponse 0x50) _ (by decide) (by decide)
    (Relation.ReflTransGen.single (QuietStep.receive pedalRequestFrame _ (by decide)))
    (by decide)

/-- C6, counterexample: after a full response with byte 3 = `0x30` the pedal
position is 8; decoding a frame with id `0x7E8` and length 2 then sets it to 0. -/
theorem short_pedal_response_counterexample :
    shortPedalResponse.id = 0x7E8 ∧ shortPedalResponse.len = 2 ∧
    (applicationCanReceiver (pedalResponse 0x30) initialState).pedalPosition = 8 ∧
    (applicationCanReceiver shortPedalResponse
      (applicationCanReceiver (pedalResponse 0x30) initialState)).pedalPosition = 0 := by
  decide

/-- C6, amended: for an inbound frame with id `0x7E8` whose length is less than
4, `applicationCanReceiver` does not consult the length: it sets `pedalPosition`
from byte 3 of the data buffer, as for a full frame, and changes nothing else. -/
theorem applicationCanReceiver_short_pedal (s : State) (message : CANMessage)
    (hid : message.id = 0x7E8) (_hlen : message.len < 4) (hbyte : message.data 3 < 256) :
    applicationCanReceiver message s
      = { s with pedalPosition := if message.data 3 > 0x28 then message.data 3 - 0x28 else 0 } := by
  rw [applicationCanReceiver_pedal message s hid, pedalOverride_byte _ hbyte]

/-- Witness of the amended C6 at a frame of length 2. -/
theorem applicationCanReceiver_short_pedal_witness :
    applicationCanReceiver shortPedalResponse
        (applicationCanReceiver (pedalResponse 0x30) initialState)
      = { applicationCanReceiver (pedalResponse 0x30) initialState with
          pedalPosition := if shortPedalResponse.data 3 > 0x28
            then shortPedalResponse.data 3 - 0x28 else 0 } :=
  applicationCanReceiver_short_pedal _ shortPedalResponse (by decide) (by decide) (by decide)

/-- C7, counterexample: `percentToByte` returns 255 at the 16-bit percent 32640,
which is below `knob100Percent`. -/
theorem percentToByte_255_below_full_scale :
    percentToByte 32640 = 255 ∧ ¬ (32640 ≥ knob100Percent) := by
  decide

theorem percentToByteWide_eq (percent : Nat) :
    percentToByteWide percent = if percent ≥ 32768 then 255 else percent / 128 := by
  unfold percentToByteWide knob100Percent
  rfl

theorem percentToByte_eq_wide (percent : Nat) :
    percentToByteWide percent ≤ 255 ∧ percentToByte percent = percentToByteWide percent := by
  have hw := percentToByteWide_eq percent
  have hle : percentToByteWide percent ≤ 255 := by
    rw [hw]; split_ifs <;> omega
  refine ⟨hle, ?_⟩
  unfold percentToByte
  have := toU8_of_fits (percentToByteWide percent : Int) (by omega) (by omega)
  omega

/-- C7, amended: `percentToByte` returns 255 for every percent at or above
`knob100Percent`, and it returns 255 exactly when `percent ≥ 32640`. -/
theorem percentToByte_eq_255_iff (percent : Nat) :
    (knob100Percent ≤ percent → percentToByte percent = 255) ∧
    (percentToByte percent = 255 ↔ 32640 ≤ percent) := by
  rw [(percentToByte_eq_wide percent).2, percentToByteWide_eq]
  unfold knob100Percent
  constructor
  · intro h; rw [if_pos h]
  · split_ifs <;> omega

/-- Witness of the amended C7 at full scale. -/
theorem percentToByte_eq_255_iff_witness : percentToByte 32768 = 255 :=
  (percentToByte_eq_255_iff 32768).1 (by decide)

/-- C8: `percentToByte` is monotonic non-decreasing, maps 0 to 0 and 32768 to
255, and the value it returns is at most 255 before the conversion to 8 bits,
which therefore does not change it. -/
theorem percentToByte_monotone :
    (∀ p q : Nat, p ≤ q → percentToByte p ≤ percentToByte q) ∧
    percentToByte 0 = 0 ∧ percentToByte 32768 = 255 ∧
    (∀ p : Nat, percentToByteWide p ≤ 255 ∧ percentToByte p = percentToByteWide p) := by
  refine ⟨?_, by decide, by decide, percentToByte_eq_wide⟩
  intro p q hpq
  rw [(percentToByte_eq_wide p).2, (percentToByte_eq_wide q).2, percentToByteWide_eq,
    percentToByteWide_eq]
  split_ifs <;> omega

/-- Witness of C8 at two 16-bit percents. -/
theorem percentToByte_monotone_witness : percentToByte 100 ≤ percentToByte 65535 :=
  percentToByte_monotone.1 100 65535 (by decide)

/-- C9: decoding a frame with id `0x7E8` whose byte 3 is the byte `v` sets the
pedal position to `v - 0x28` (no underflow) when `v > 0x28` and to 0 otherwise;
`v = 0x28` gives 0 and `v = 0x50` gives `0x28`. -/
theorem applicationCanReceiver_pedal_override (s : State) (message : CANMessage)
    (hid : message.id = 0x7E8) (hbyte : message.data 3 < 256) :
    (message.data 3 > 0x28 →
      ((applicationCanReceiver message s).pedalPosition : Int) = (message.data 3 : Int) - 0x28) ∧
    (message.data 3 ≤ 0x28 → (applicationCanReceiver message s).pedalPosition = 0) ∧
    (message.data 3 = 0x28 → (applicationCanReceiver message s).pedalPosition = 0) ∧
    (message.data 3 = 0x50 → (applicationCanReceiver message s).pedalPosition = 0x28) := by
  rw [applicationCanReceiver_pedal message s hid, pedalOverride_byte _ hbyte]
  simp only
  refine ⟨?_, ?_, ?_, ?_⟩ <;> intro h <;> split_ifs <;> omega

/-- Witness of C9 at the two bytes named in the claim. -/
theorem applicationCanReceiver_pedal_override_witness :
    (applicationCanReceiver (pedalResponse 0x28) initialState).pedalPosition = 0 ∧
    (applicationCanReceiver (pedalResponse 0x50) initialState).pedalPosition = 0x28 :=
  ⟨(applicationCanReceiver_pedal_override initialState (pedalResponse 0x28)
      (by decide) (by decide)).2.2.1 (by decide),
   (applicationCanReceiver_pedal_override initialState (pedalResponse 0x50)
      (by decide) (by decide)).2.2.2 (by decide)⟩

/-- C10: in every state reached from the initial state without decoding a frame
with id `0x7E8`, the EngineSpeed frame has id `0x0C9`, length 8 and byte 1 equal
to `channel0.percent / 256`; the same holds when the percent of channel 0 is
replaced by any 16-bit value. -/
theorem engineSpeed_before_pedal_response (s : State) (hrun : QuietRun initialState s) :
    (∃ f rest, (engineTask s).2 = f :: rest ∧ f.id = 0x0C9 ∧ f.len = 8 ∧
      f.data 1 = s.knobPercent 0 / 256) ∧
    (∀ percent : Nat, percent < 65536 →
      ∃ f rest, (engineTask { s with knobPercent := Function.update s.knobPercent 0 percent }).2
          = f :: rest ∧ f.id = 0x0C9 ∧ f.len = 8 ∧ f.data 1 = percent / 256) := by
  have hpre := (quietRun_preserves hrun)
  have h0 : s.pedalPosition = 0 := hpre.1
  have hk : s.knobPercent 0 < 65536 := hpre.2 (fun _ => show (0 : Nat) < 65536 by decide) 0
  constructor
  · refine ⟨engineSpeedFrame s, _, rfl, rfl, rfl, ?_⟩
    rw [engineSpeedFrame_byte1 s hk, h0]
    rfl
  · intro percent hpc
    refine ⟨engineSpeedFrame { s with knobPercent := Function.update s.knobPercent 0 percent },
      _, rfl, rfl, rfl, ?_⟩
    rw [engineSpeedFrame_byte1 _ (by simpa using hpc)]
    simp [h0]

/-- Witness of C10: channel 0 sampled, a frame with id `0x0C9` decoded. -/
theorem engineSpeed_before_pedal_response_witness :
    ∃ f rest, (engineTask (applicationCanReceiver (engineSpeedFrame initialState)
        (readKnob 0 2045 initialState))).2 = f :: rest ∧ f.id = 0x0C9 ∧ f.len = 8 ∧
      f.data 1 = (applicationCanReceiver (engineSpeedFrame initialState)
        (readKnob 0 2045 initialState)).knobPercent 0 / 256 :=
  (engineSpeed_before_pedal_response _
    (Relation.ReflTransGen.tail
      (Relation.ReflTransGen.single (QuietStep.sample 0 2045 initialState))
      (QuietStep.receive (engineSpeedFrame initialState) _ (by decide)))).1

/-! ## The frames transmitted by `transmitCAN` -/

/-- Every message transmitted by one call of `transmitCAN` is one of the five
frames, built from the state at the call. -/
theorem transmitCAN_frame_cases (clock : Timer → Nat × Nat) (s : State) (f : CANMessage)
    (hf : f ∈ (transmitCAN clock s).2) :
    f = engineSpeedFrame s ∨ f = vehicleSpeedFrame s ∨ f = engineTemperatureFrame s ∨
      f = knobStatusFrame s ∨ f = pedalRequestFrame := by
  unfold transmitCAN runEvery engineTask at hf
  simp only [List.mem_append] at hf
  rcases hf with (hf | hf) | hf
  · split_ifs at hf
    · simp only [List.mem_cons, List.mem_singleton, List.not_mem_nil, or_false] at hf
      rcases hf with h | h | h
      · exact Or.inl h
      · exact Or.inr (Or.inl h)
      · exact Or.inr (Or.inr (Or.inl h))
    · simp at hf
  · split_ifs at hf <;> simp at hf <;> first
      | exact Or.inr (Or.inr (Or.inr (Or.inl hf)))
  · split_ifs at hf <;> simp at hf <;> first
      | exact Or.inr (Or.inr (Or.inr (Or.inr hf)))

/-- C11: with the default calibration (30, 4060) on the three channels, the raw
samples `{30, 2045, 4060}` normalize to the percents `{0, 16384, 32768}`, for
which the simulated EngineSpeed byte 1 is 0; once a frame with id `0x7E8` and
byte 3 = `0x30` has been decoded, the EngineSpeed frame carries byte 1 = `0x08`,
until another such frame is decoded. -/
theorem end_to_end_scenario :
    (∀ i, initialState.knobValueLow i = 30 ∧ initialState.knobValueHigh i = 4060) ∧
    ∃ s, readKnobs scenarioSamples initialState = some s ∧
      s.knobPercent 0 = 0 ∧ s.knobPercent 1 = 16384 ∧ s.knobPercent 2 = 32768 ∧
      (engineSpeedFrame s).data 1 = 0 ∧
      ∀ t, QuietRun (applicationCanReceiver (pedalResponse 0x30) s) t →
        ∃ f rest, (engineTask t).2 = f :: rest ∧ f.id = 0x0C9 ∧ f.len = 8 ∧ f.data 1 = 0x08 := by
  refine ⟨fun i => ⟨rfl, rfl⟩, ?_⟩
  have hk : (readKnobs scenarioSamples initialState).map
      (fun s => (s.knobPercent 0, s.knobPercent 1, s.knobPercent 2, s.pedalPosition))
      = some (0, 16384, 32768, 0) := by decide
  cases hr : readKnobs scenarioSamples initialState with
  | none => rw [hr] at hk; simp at hk
  | some s =>
    rw [hr] at hk
    simp only [Option.map_some', Option.some.injEq, Prod.mk.injEq] at hk
    obtain ⟨h0, h1, h2, hpos⟩ := hk
    refine ⟨s, rfl, h0, h1, h2, ?_, ?_⟩
    · rw [engineSpeedFrame_byte1 s (by omega), hpos, h0]
      rfl
    · intro t ht
      refine ⟨engineSpeedFrame t, _, rfl, rfl, rfl, ?_⟩
      have hp : t.pedalPosition = 8 := by
        rw [(quietRun_preserves ht).1, applicationCanReceiver_pedal _ s (by decide)]
        show pedalOverride (toU8 ((pedalResponse 0x30).data 3 : Int)) = 8
        decide
      unfold engineSpeedFrame
      simp only [Function.update_same, hp]
      rfl

/-- Witness of C11: the EngineSpeed frame built right after the response is
decoded. -/
theorem end_to_end_scenario_witness :
    ∃ s, readKnobs scenarioSamples initialState = some s ∧
      ∃ f rest, (engineTask (applicationCanReceiver (pedalResponse 0x30) s)).2 = f :: rest ∧
        f.id = 0x0C9 ∧ f.len = 8 ∧ f.data 1 = 0x08 := by
  obtain ⟨s, hs, _, _, _, _, h⟩ := end_to_end_scenario.2
  exact ⟨s, hs, h _ Relation.ReflTransGen.refl⟩

/-! ## The KnobStatus, VehicleSpeed and EngineTemperature frames -/

/-- C12: the KnobStatus frame has id `0x123`, length 3 and payload byte `i` equal
to `percentToByte` of the percent of channel `i`; for the percents
`{0, 16384, 32768}` the payload is `{0, 128, 255}`.  Every message with id `0x123`
that `transmitCAN` transmits is this frame. -/
theorem knobStatusFrame_payload (s : State) :
    (knobStatusFrame s).id = 0x123 ∧ (knobStatusFrame s).len = 3 ∧
    (knobStatusFrame s).data 0 = percentToByte (s.knobPercent 0) ∧
    (knobStatusFrame s).data 1 = percentToByte (s.knobPercent 1) ∧
    (knobStatusFrame s).data 2 = percentToByte (s.knobPercent 2) ∧
    (s.knobPercent 0 = 0 → s.knobPercent 1 = 16384 → s.knobPercent 2 = 32768 →
      (knobStatusFrame s).data 0 = 0 ∧
      ((knobStatusFrame s).data 1 = 127 ∨ (knobStatusFrame s).data 1 = 128) ∧
      (knobStatusFrame s).data 1 = 128 ∧ (knobStatusFrame s).data 2 = 255) ∧
    (∀ clock f, f ∈ (transmitCAN clock s).2 → f.id = 0x123 → f = knobStatusFrame s) := by
  have hd0 : (knobStatusFrame s).data 0 = percentToByte (s.knobPercent 0) := by
    simp [knobStatusFrame, Function.update]
  have hd1 : (knobStatusFrame s).data 1 = percentToByte (s.knobPercent 1) := by
    simp [knobStatusFrame, Function.update]
  have hd2 : (knobStatusFrame s).data 2 = percentToByte (s.knobPercent 2) := by
    simp [knobStatusFrame, Function.update]
  refine ⟨rfl, rfl, hd0, hd1, hd2, ?_, ?_⟩
  · intro h0 h1 h2
    rw [hd0, hd1, hd2, h0, h1, h2]
    decide
  · intro clock f hf hid
    rcases transmitCAN_frame_cases clock s f hf with h | h | h | h | h
    · rw [h] at hid; exact absurd hid (show (0x0C9 : Nat) ≠ 0x123 by decide)
    · rw [h] at hid; exact absurd hid (show (0x3E9 : Nat) ≠ 0x123 by decide)
    · rw [h] at hid; exact absurd hid (show (0x4C1 : Nat) ≠ 0x123 by decide)
    · exact h
    · rw [h] at hid; exact absurd hid (show (0x7E0 : Nat) ≠ 0x123 by decide)

/-- Witness of C12 at the percents `{0, 16384, 32768}`. -/
theorem knobStatusFrame_payload_witness :
    (knobStatusFrame { initialState with knobPercent := scenarioPercents }).data 0 = 0 ∧
    ((knobStatusFrame { initialState with knobPercent := scenarioPercents }).data 1 = 127 ∨
      (knobStatusFrame { initialState with knobPercent := scenarioPercents }).data 1 = 128) ∧
    (knobStatusFrame { initialState with knobPercent := scenarioPercents }).data 1 = 128 ∧
    (knobStatusFrame { initialState with knobPercent := scenarioPercents }).data 2 = 255 :=
  (knobStatusFrame_payload { initialState with knobPercent := scenarioPercents }).2.2.2.2.2.1
    (by decide) (by decide) (by decide)

/-- The 16-bit value `vehicleSpeed`, for a 16-bit percent of channel 1. -/
theorem vehicleSpeed_eq (s : State) (hp : s.knobPercent 1 < 65536) :
    vehicleSpeed s = s.knobPercent 1 / 2 := by
  unfold vehicleSpeed
  rw [Int.tdiv_eq_ediv (by omega) (by omega)]
  have := toU16_of_fits ((s.knobPercent 1 : Int) / 2) (by omega) (by omega)
  omega

/-- C13: the VehicleSpeed frame has id `0x3E9` and length 8, and for a 16-bit
percent of channel 1 its bytes 0 and 1 are the high and low byte of
`percent / 2`, so that `byte0 * 256 + byte1 = percent / 2`.  Every message with
id `0x3E9` that `transmitCAN` transmits is this frame. -/
theorem vehicleSpeedFrame_big_endian (s : State) (hp : s.knobPercent 1 < 65536) :
    (vehicleSpeedFrame s).id = 0x3E9 ∧ (vehicleSpeedFrame s).len = 8 ∧
    (vehicleSpeedFrame s).data 0 * 256 + (vehicleSpeedFrame s).data 1 = s.knobPercent 1 / 2 ∧
    (vehicleSpeedFrame s).data 0 = s.knobPercent 1 / 2 / 256 ∧
    (vehicleSpeedFrame s).data 1 = s.knobPercent 1 / 2 % 256 ∧
    (vehicleSpeedFrame s).data 0 < 256 ∧ (vehicleSpeedFrame s).data 1 < 256 ∧
    (∀ clock f, f ∈ (transmitCAN clock s).2 → f.id = 0x3E9 → f = vehicleSpeedFrame s) := by
  have hv := vehicleSpeed_eq s hp
  have hshift : vehicleSpeed s >>> 8 = s.knobPercent 1 / 2 / 256 := by
    rw [Nat.shiftRight_eq_div_pow, hv]
  have hand : vehicleSpeed s &&& 0xFF = s.knobPercent 1 / 2 % 256 := by
    rw [hv]
    exact Nat.and_pow_two_sub_one_eq_mod _ 8
  have hd0 : (vehicleSpeedFrame s).data 0 = s.knobPercent 1 / 2 / 256 := by
    have h := toU8_of_fits ((s.knobPercent 1 / 2 / 256 : Nat) : Int) (by omega) (by omega)
    have hsel : (vehicleSpeedFrame s).data 0 = toU8 ((vehicleSpeed s >>> 8 : Nat) : Int) := by
      unfold vehicleSpeedFrame
      simp only
      rw [Function.update_noteq (by decide), Function.update_same]
    rw [hsel, hshift]
    omega
  have hd1 : (vehicleSpeedFrame s).data 1 = s.knobPercent 1 / 2 % 256 := by
    have h := toU8_of_fits ((s.knobPercent 1 / 2 % 256 : Nat) : Int) (by omega) (by omega)
    simp only [vehicleSpeedFrame, Function.update_same, hand]
    omega
  refine ⟨rfl, rfl, ?_, hd0, hd1, ?_, ?_, ?_⟩
  · rw [hd0, hd1]; omega
  · rw [hd0]; omega
  · rw [hd1]; omega
  · intro clock f hf hid
    rcases transmitCAN_frame_cases clock s f hf with h | h | h | h | h
    · rw [h] at hid; exact absurd hid (show (0x0C9 : Nat) ≠ 0x3E9 by decide)
    · exact h
    · rw [h] at hid; exact absurd hid (show (0x4C1 : Nat) ≠ 0x3E9 by decide)
    · rw [h] at hid; exact absurd hid (show (0x123 : Nat) ≠ 0x3E9 by decide)
    · rw [h] at hid; exact absurd hid (show (0x7E0 : Nat) ≠ 0x3E9 by decide)

/-- Witness of C13 at full scale on channel 1: `32768 / 2 = 0x4000`. -/
theorem vehicleSpeedFrame_big_endian_witness :
    (vehicleSpeedFrame { initialState with knobPercent := scenarioPercents }).data 0 * 256
      + (vehicleSpeedFrame { initialState with knobPercent := scenarioPercents }).data 1
      = ({ initialState with knobPercent := scenarioPercents } : State).knobPercent 1 / 2 :=
  (vehicleSpeedFrame_big_endian { initialState with knobPercent := scenarioPercents }
    (by decide)).2.2.1

/-- The value of line 146 before the cast, for a 16-bit percent: no operation on
`uint32_t` wraps. -/
theorem engineTemperatureWide_eq (percent : Nat) (hp : percent < 65536) :
    engineTemperatureWide percent = percent * (0xAA - 0x57) / 32768 + 0x57 := by
  have hspan : toU32 (toI32 ((tmax : Int) - (tmin : Int))) = 83 := by decide
  have hfull : toU32 (knob100Percent : Int) = 32768 := by decide
  have htmin : toU32 (tmin : Int) = 87 := by decide
  have hnat : ∀ n : Nat, n < 4294967296 → toU32 (n : Int) = n := by
    intro n hn
    unfold toU32
    omega
  unfold engineTemperatureWide
  simp only [hspan, hfull, htmin]
  rw [hnat percent (by omega), hnat (percent * 83) (by omega),
    hnat (percent * 83 / 32768 + 87) (by omega)]

/-- C14: the EngineTemperature frame has id `0x4C1` and length 8; for a percent
of channel 2 in `[0, 32768]` its byte 2 equals
`percent * (0xAA - 0x57) / 32768 + 0x57`, which the cast to 8 bits leaves
unchanged, lies in `[0x57, 0xAA]`, is `0x57` at percent 0 and `0xAA` at percent
32768, and is monotonic non-decreasing in the percent. -/
theorem engineTemperatureFrame_byte (s : State) (hp : s.knobPercent 2 ≤ 32768) :
    (engineTemperatureFrame s).id = 0x4C1 ∧ (engineTemperatureFrame s).len = 8 ∧
    (engineTemperatureFrame s).data 2 = s.knobPercent 2 * (0xAA - 0x57) / 32768 + 0x57 ∧
    (engineTemperatureFrame s).data 2 = engineTemperatureWide (s.knobPercent 2) ∧
    0x57 ≤ (engineTemperatureFrame s).data 2 ∧ (engineTemperatureFrame s).data 2 ≤ 0xAA ∧
    (s.knobPercent 2 = 0 → (engineTemperatureFrame s).data 2 = 0x57) ∧
    (s.knobPercent 2 = 32768 → (engineTemperatureFrame s).data 2 = 0xAA) ∧
    (∀ t : State, t.knobPercent 2 ≤ 32768 → s.knobPercent 2 ≤ t.knobPercent 2 →
      (engineTemperatureFrame s).data 2 ≤ (engineTemperatureFrame t).data 2) ∧
    (∀ clock f, f ∈ (transmitCAN clock s).2 → f.id = 0x4C1 → f = engineTemperatureFrame s) := by
  have hbyte : ∀ u : State, u.knobPercent 2 ≤ 32768 →
      (engineTemperatureFrame u).data 2 = u.knobPercent 2 * (0xAA - 0x57) / 32768 + 0x57 ∧
      (engineTemperatureFrame u).data 2 = engineTemperatureWide (u.knobPercent 2) := by
    intro u hu
    have hw := engineTemperatureWide_eq (u.knobPercent 2) (by omega)
    have h8 := toU8_of_fits (engineTemperatureWide (u.knobPercent 2) : Int) (by omega) (by omega)
    simp only [engineTemperatureFrame, Function.update_same, engineTemperature]
    omega
  have hs := hbyte s hp
  refine ⟨rfl, rfl, hs.1, hs.2, ?_, ?_, ?_, ?_, ?_, ?_⟩
  · rw [hs.1]; omega
  · rw [hs.1]; omega
  · intro h0; rw [hs.1, h0]
  · intro h1; rw [hs.1, h1]
  · intro t ht hst
    rw [hs.1, (hbyte t ht).1]
    omega
  · intro clock f hf hid
    rcases transmitCAN_frame_cases clock s f hf with h | h | h | h | h
    · rw [h] at hid; exact absurd hid (show (0x0C9 : Nat) ≠ 0x4C1 by decide)
    · rw [h] at hid; exact absurd hid (show (0x3E9 : Nat) ≠ 0x4C1 by decide)
    · exact h
    · rw [h] at hid; exact absurd hid (show (0x123 : Nat) ≠ 0x4C1 by decide)
    · rw [h] at hid; exact absurd hid (show (0x7E0 : Nat) ≠ 0x4C1 by decide)

/-- Witness of C14 at full scale on channel 2. -/
theorem engineTemperatureFrame_byte_witness :
    (engineTemperatureFrame { initialState with knobPercent := scenarioPercents }).data 2 = 0xAA :=
  (engineTemperatureFrame_byte { initialState with knobPercent := scenarioPercents }
    (by decide)).2.2.2.2.2.2.2.1 (by decide)

/-! ## Inbound frames: mirroring and ignored ids -/

/-- A quantity that does not depend on the timers and that `fn` preserves is
preserved by a call of `every`. -/
theorem runEvery_invariant {α β : Type} (g : State → β) (t : Timer) (intervalMillis : Nat)
    (clock : Nat × Nat) (fn : State → State × List α) (s : State)
    (hlast : ∀ st l, g { st with last := l } = g st) (hfn : ∀ st, g (fn st).1 = g st) :
    g (runEvery t intervalMillis clock fn s).1 = g s := by
  unfold runEvery
  simp only
  split_ifs
  · rw [hfn, hlast]
  · rw [hlast]

/-- The bytes of the global `engineSpeedMessage` other than byte 1 are not
changed by `transmitCAN`. -/
theorem transmitCAN_mirror (clock : Timer → Nat × Nat) (s : State) (k : Fin 8) (hk : k ≠ 1) :
    (transmitCAN clock s).1.engineSpeedMessage.data k = s.engineSpeedMessage.data k := by
  unfold transmitCAN
  simp only
  rw [runEvery_invariant (fun st => st.engineSpeedMessage.data k) _ _ _ _ _
      (fun _ _ => rfl) (fun _ => rfl),
    runEvery_invariant (fun st => st.engineSpeedMessage.data k) _ _ _ _ _
      (fun _ _ => rfl) (fun _ => rfl),
    runEvery_invariant (fun st => st.engineSpeedMessage.data k) _ _ _ _ _ (fun _ _ => rfl)]
  intro st
  show Function.update st.engineSpeedMessage.data 1 _ k = st.engineSpeedMessage.data k
  exact Function.update_noteq hk _ _

/-- Decoding a frame whose id is not `0x0C9` leaves `engineSpeedMessage` as it is. -/
theorem applicationCanReceiver_not_mirror (message : CANMessage) (s : State)
    (h : message.id ≠ 0x0C9) :
    (applicationCanReceiver message s).engineSpeedMessage = s.engineSpeedMessage := by
  unfold applicationCanReceiver
  simp only [if_neg h]
  split_ifs <;> rfl

theorem mirrorStep_preserves {s s' : State} (h : MirrorStep s s') (k : Fin 8) (hk : k ≠ 1) :
    s'.engineSpeedMessage.data k = s.engineSpeedMessage.data k := by
  cases h with
  | receive message _ hid => rw [applicationCanReceiver_not_mirror message s hid]
  | sample i sample _ => rfl
  | normalize i _ _ hn =>
    unfold normalizeKnob at hn
    cases hw : normalizedPercent (s.knobValueRaw i) (s.knobValueLow i) (s.knobValueHigh i) with
    | none => rw [hw] at hn; simp at hn
    | some p =>
      rw [hw] at hn
      simp only [Option.map_some', Option.some.injEq] at hn
      subst hn
      rfl
  | print clock _ =>
    exact runEvery_invariant (fun st => st.engineSpeedMessage.data k) _ _ _ _ _
      (fun _ _ => rfl) (fun _ => rfl)
  | transmit clock _ => exact transmitCAN_mirror clock s k hk

theorem mirrorRun_preserves {s s' : State} (h : MirrorRun s s') (k : Fin 8) (hk : k ≠ 1) :
    s'.engineSpeedMessage.data k = s.engineSpeedMessage.data k := by
  unfold MirrorRun at h
  induction h with
  | refl => rfl
  | tail _ hstep ih => exact (mirrorStep_preserves hstep k hk).trans ih

/-- C15: after an inbound frame with id `0x0C9` is decoded, and until another
one is, the EngineSpeed frame (transmitted first by the 2 ms task) has its bytes
0 and 2 to 7 equal to those of the decoded payload, while byte 1 is the value
of the encode rule (the pedal position when it is positive, else
`channel0.percent / 256`), whatever byte 1 of the payload is; decoding the
frame changes neither the pedal position nor the channel percents. -/
theorem engineSpeed_mirrors_inbound (s : State) (message : CANMessage) (t : State)
    (hid : message.id = 0x0C9) (hrun : MirrorRun (applicationCanReceiver message s) t)
    (hp : t.knobPercent 0 < 65536) :
    (∃ f rest, (engineTask t).2 = f :: rest ∧ f.id = 0x0C9 ∧ f.len = 8 ∧
      (∀ k : Fin 8, k ≠ 1 → f.data k = message.data k) ∧
      f.data 1 = if t.pedalPosition > 0 then t.pedalPosition else t.knobPercent 0 / 256) ∧
    (applicationCanReceiver message s).pedalPosition = s.pedalPosition ∧
    (applicationCanReceiver message s).knobPercent = s.knobPercent ∧
    (applicationCanReceiver message s).knobValueRaw = s.knobValueRaw := by
  have hrecv : applicationCanReceiver message s
      = { s with engineSpeedMessage := { s.engineSpeedMessage with data := message.data } } := by
    unfold applicationCanReceiver
    have h7 : message.id ≠ 0x7E8 := by omega
    simp only [if_pos hid, if_neg h7]
  refine ⟨⟨engineSpeedFrame t, _, rfl, rfl, rfl, ?_, engineSpeedFrame_byte1 t hp⟩, ?_, ?_, ?_⟩
  · intro k hk
    show Function.update t.engineSpeedMessage.data 1 _ k = message.data k
    rw [Function.update_noteq hk, mirrorRun_preserves hrun k hk, hrecv]
  · rw [hrecv]
  · rw [hrecv]
  · rw [hrecv]

/-- Witness of C15: a payload whose byte 1 is `0xFF`, decoded in the initial
state and followed by the sampling of channel 0. -/
theorem engineSpeed_mirrors_inbound_witness :
    ∃ f rest, (engineTask (readKnob 0 2045
        (applicationCanReceiver (engineSpeedInbound (fun k => 0xF0 + k.val)) initialState))).2
          = f :: rest ∧ f.id = 0x0C9 ∧ f.len = 8 ∧
      (∀ k : Fin 8, k ≠ 1 → f.data k = (engineSpeedInbound (fun k => 0xF0 + k.val)).data k) ∧
      f.data 1 = if (readKnob 0 2045 (applicationCanReceiver
          (engineSpeedInbound (fun k => 0xF0 + k.val)) initialState)).pedalPosition > 0
        then (readKnob 0 2045 (applicationCanReceiver
          (engineSpeedInbound (fun k => 0xF0 + k.val)) initialState)).pedalPosition
        else (readKnob 0 2045 (applicationCanReceiver
          (engineSpeedInbound (fun k => 0xF0 + k.val)) initialState)).knobPercent 0 / 256 :=
  (engineSpeed_mirrors_inbound initialState (engineSpeedInbound (fun k => 0xF0 + k.val)) _
    (by decide) (Relation.ReflTransGen.single (MirrorStep.sample 0 2045 _)) (by decide)).1

/-- C16: decoding an inbound frame whose id is neither `0x0C9` nor `0x7E8` leaves
the whole state unchanged, in particular the pedal position, the EngineSpeed
template and the channel values. -/
theorem applicationCanReceiver_ignores_other (s : State) (message : CANMessage)
    (h1 : message.id ≠ 0x0C9) (h2 : message.id ≠ 0x7E8) :
    applicationCanReceiver message s = s ∧
    (applicationCanReceiver message s).pedalPosition = s.pedalPosition ∧
    (applicationCanReceiver message s).engineSpeedMessage = s.engineSpeedMessage ∧
    (applicationCanReceiver message s).knobValueRaw = s.knobValueRaw ∧
    (applicationCanReceiver message s).knobPercent = s.knobPercent := by
  have h : applicationCanReceiver message s = s := by
    unfold applicationCanReceiver
    simp only [if_neg h1, if_neg h2]
  rw [h]
  exact ⟨rfl, rfl, rfl, rfl, rfl⟩

/-- Witness of C16 at the pedal request frame (id `0x7E0`) echoed back. -/
theorem applicationCanReceiver_ignores_other_witness :
    applicationCanReceiver pedalRequestFrame
        (applicationCanReceiver (pedalResponse 0x50) initialState)
      = applicationCanReceiver (pedalResponse 0x50) initialState :=
  (applicationCanReceiver_ignores_other _ pedalRequestFrame (by decide) (by decide)).1

/-! ## Runs of the `every` timer -/

/-- The timer step when the clock has not wrapped since `last`. -/
theorem every_of_le (w intervalMillis last now nowStore : Nat) (hle : last ≤ now)
    (hnow : now < 2 ^ w) :
    every w intervalMillis last now nowStore
      = if last + intervalMillis < now then (true, nowStore) else (false, last) := by
  unfold every
  rw [subUnsigned_eq w now last hnow (by omega), if_pos hle]
  split_ifs <;> first | rfl | omega

/-- The unsigned difference of a reading with itself is zero. -/
theorem subUnsigned_self (w now : Nat) : subUnsigned w now now = 0 := by
  unfold subUnsigned
  simp

/-- C17: two successive calls of `every` with the same clock reading `now` run
the task at most once: if the first call fires the second does not, and if the
first does not fire neither does the second. -/
theorem every_twice_same_reading (w intervalMillis last now : Nat) :
    ((every w intervalMillis last now now).1 = true →
      (every w intervalMillis (every w intervalMillis last now now).2 now now).1 = false) ∧
    ((every w intervalMillis last now now).1 = false →
      (every w intervalMillis (every w intervalMillis last now now).2 now now).1 = false) ∧
    (firings w intervalMillis last [(now, now), (now, now)]).length ≤ 1 := by
  have hz := subUnsigned_self w now
  by_cases h : subUnsigned w now last > intervalMillis
  · have h1 : every w intervalMillis last now now = (true, now) := by
      unfold every; rw [if_pos h]
    have h2 : every w intervalMillis now now now = (false, now) := by
      unfold every; rw [hz, if_neg (by omega)]
    simp [firings, h1, h2]
  · have h1 : every w intervalMillis last now now = (false, last) := by
      unfold every; rw [if_neg h]
    simp [firings, h1]

/-- Witness of C17 at a reading at which the first call fires. -/
theorem every_twice_same_reading_witness :
    (every 32 10 (every 32 10 0 50 50).2 50 50).1 = false :=
  (every_twice_same_reading 32 10 0 50).1 (by decide)

theorem firings_spaced (w intervalMillis : Nat) (readings : List (Nat × Nat)) :
    ∀ last : Nat, List.Pairwise (fun a b => a ≤ b) (last :: flattenReadings readings) →
      (∀ t ∈ flattenReadings readings, t < 2 ^ w) →
      (∀ f ∈ firings w intervalMillis last readings, last + intervalMillis < f) ∧
      List.Pairwise (fun a b => a + intervalMillis < b)
        (firings w intervalMillis last readings) := by
  induction readings with
  | nil => intro last _ _; simp [firings]
  | cons c rest ih =>
    intro last hord hb
    simp only [flattenReadings, List.pairwise_cons, List.mem_cons, forall_eq_or_imp] at hord hb
    obtain ⟨⟨hl1, hl2, hlr⟩, ⟨h12, _⟩, h2r, hpr⟩ := hord
    obtain ⟨hb1, hb2, hbr⟩ := hb
    have hstep := every_of_le w intervalMillis last c.1 c.2 hl1 hb1
    by_cases hf : last + intervalMillis < c.1
    · rw [if_pos hf] at hstep
      have ih2 := ih c.2 (List.pairwise_cons.mpr ⟨h2r, hpr⟩) hbr
      simp only [firings, hstep, if_true, List.mem_cons, forall_eq_or_imp, List.pairwise_cons]
      refine ⟨⟨hf, fun f hfm => ?_⟩, fun f hfm => ?_, ih2.2⟩
      · have := ih2.1 f hfm; omega
      · have := ih2.1 f hfm; omega
    · rw [if_neg hf] at hstep
      have ih2 := ih last (List.pairwise_cons.mpr ⟨hlr, hpr⟩) hbr
      simp only [firings, hstep, Bool.false_eq_true, if_false]
      exact ih2

theorem lastValues_ordered (w intervalMillis : Nat) (readings : List (Nat × Nat)) :
    ∀ last : Nat, List.Pairwise (fun a b => a ≤ b) (last :: flattenReadings readings) →
      (∀ t ∈ flattenReadings readings, t < 2 ^ w) →
      List.Pairwise (fun a b => a ≤ b) (last :: lastValues w intervalMillis last readings) := by
  induction readings with
  | nil => intro last _ _; simp [lastValues]
  | cons c rest ih =>
    intro last hord hb
    simp only [flattenReadings, List.pairwise_cons, List.mem_cons, forall_eq_or_imp] at hord hb
    obtain ⟨⟨hl1, hl2, hlr⟩, ⟨h12, _⟩, h2r, hpr⟩ := hord
    obtain ⟨hb1, hb2, hbr⟩ := hb
    have hstep := every_of_le w intervalMillis last c.1 c.2 hl1 hb1
    by_cases hf : last + intervalMillis < c.1
    · rw [if_pos hf] at hstep
      have ih2 := ih c.2 (List.pairwise_cons.mpr ⟨h2r, hpr⟩) hbr
      simp only [lastValues, hstep]
      rw [List.pairwise_cons] at ih2 ⊢
      refine ⟨fun v hv => ?_, List.pairwise_cons.mpr ih2⟩
      rcases List.mem_cons.mp hv with h | h
      · omega
      · have := ih2.1 v h; omega
    · rw [if_neg hf] at hstep
      have ih2 := ih last (List.pairwise_cons.mpr ⟨hlr, hpr⟩) hbr
      simp only [lastValues, hstep]
      rw [List.pairwise_cons] at ih2 ⊢
      refine ⟨fun v hv => ?_, List.pairwise_cons.mpr ih2⟩
      rcases List.mem_cons.mp hv with h | h
      · omega
      · exact ih2.1 v h

theorem firings_length_le (w intervalMillis : Nat) (readings : List (Nat × Nat)) :
    ∀ last : Nat, (firings w intervalMillis last readings).length ≤ readings.length := by
  induction readings with
  | nil => intro last; simp [firings]
  | cons c rest ih =>
    intro last
    simp only [firings]
    split_ifs
    · have := ih (every w intervalMillis last c.1 c.2).2
      simp only [List.length_cons]; omega
    · have := ih (every w intervalMillis last c.1 c.2).2
      simp only [List.length_cons]; omega

/-- No call fires while the readings stay within `intervalMillis` of `last`. -/
theorem firings_nil_of_close (w intervalMillis last : Nat) (rest : List (Nat × Nat))
    (h : ∀ r ∈ rest, last ≤ r.1 ∧ r.1 ≤ last + intervalMillis ∧ r.1 < 2 ^ w) :
    firings w intervalMillis last rest = [] := by
  induction rest with
  | nil => simp [firings]
  | cons c rest ih =>
    have hc := h c (List.mem_cons_self _ _)
    have hstep := every_of_le w intervalMillis last c.1 c.2 hc.1 hc.2.2
    rw [if_neg (by omega)] at hstep
    simp only [firings, hstep, Bool.false_eq_true, if_false]
    exact ih (fun r hr => h r (List.mem_cons_of_mem _ hr))

/-- C18: one timer driven by non-decreasing clock readings that do not wrap.
Any two firings, in particular two successive ones, occur at readings that
differ by more than `intervalMillis`; the stored `last` never decreases; each
call fires at most once, and a reading that is `k` intervals late fires once,
with no further firing while the readings stay within `intervalMillis` of the
stored timestamp. -/
theorem every_run_spacing (w intervalMillis last : Nat) (readings : List (Nat × Nat))
    (hord : List.Pairwise (fun a b => a ≤ b) (last :: flattenReadings readings))
    (hbound : ∀ t ∈ flattenReadings readings, t < 2 ^ w) :
    List.Chain' (fun a b => a + intervalMillis < b) (firings w intervalMillis last readings) ∧
    List.Pairwise (fun a b => a + intervalMillis < b) (firings w intervalMillis last readings) ∧
    List.Chain' (fun a b => a ≤ b) (last :: lastValues w intervalMillis last readings) ∧
    (firings w intervalMillis last readings).length ≤ readings.length ∧
    (∀ (k : Nat) (c : Nat × Nat) (rest : List (Nat × Nat)),
      1 ≤ k → last + k * intervalMillis < c.1 → c.1 < 2 ^ w →
      (∀ r ∈ rest, c.2 ≤ r.1 ∧ r.1 ≤ c.2 + intervalMillis ∧ r.1 < 2 ^ w) →
      firings w intervalMillis last (c :: rest) = [c.1]) := by
  have hsp := firings_spaced w intervalMillis readings last hord hbound
  refine ⟨hsp.2.chain', hsp.2, (lastValues_ordered w intervalMillis readings last hord hbound).chain',
    firings_length_le w intervalMillis readings last, ?_⟩
  intro k c rest hk hlate hc hrest
  have hmul : intervalMillis ≤ k * intervalMillis := Nat.le_mul_of_pos_left _ hk
  have hstep := every_of_le w intervalMillis last c.1 c.2 (by omega) hc
  rw [if_pos (by omega)] at hstep
  simp only [firings, hstep, if_true]
  rw [firings_nil_of_close w intervalMillis c.2 rest hrest]

/-- Witness of C18 on the 32-bit clock: the readings 5, 50, 55 and 70 with
interval 10 give the firings 50 and 70. -/
theorem every_run_spacing_witness :
    List.Chain' (fun a b => a + 10 < b) (firings 32 10 0 [(5, 5), (50, 51), (55, 55), (70, 70)]) ∧
    firings 32 10 0 [(5, 5), (50, 51), (55, 55), (70, 70)] = [50, 70] :=
  ⟨(every_run_spacing 32 10 0 [(5, 5), (50, 51), (55, 55), (70, 70)]
      (by decide) (by decide)).1, by decide⟩

/-! ## The normalizer against its specification -/

theorem clampPercent_eq_max_min (percent : Int) :
    clampPercent percent = max 0 (min 32768 percent) := by
  unfold clampPercent knob100Percent
  push_cast
  split_ifs <;> omega

/-- C19: for 16-bit `raw`, `low`, `high` with `low < high` the machine
computation of `normalizeKnob` is the exact one: `range` is `high - low`
without wrap-around and is not zero, the product `(raw - low) * 32768` fits in
a signed 32-bit integer and is what the machine computes, and the stored
percent is the truncated quotient clamped to `[0, 32768]`, computed over
unbounded integers. -/
theorem normalizeKnob_matches_spec (s : State) (i : Fin 3)
    (hraw : s.knobValueRaw i < 65536) (hhigh : s.knobValueHigh i < 65536)
    (hcal : s.knobValueLow i < s.knobValueHigh i) :
    (knobRange (s.knobValueLow i) (s.knobValueHigh i) : Int)
      = (s.knobValueHigh i : Int) - (s.knobValueLow i : Int) ∧
    knobRange (s.knobValueLow i) (s.knobValueHigh i) ≠ 0 ∧
    -2147483648 ≤ ((s.knobValueRaw i : Int) - (s.knobValueLow i : Int)) * 32768 ∧
    ((s.knobValueRaw i : Int) - (s.knobValueLow i : Int)) * 32768 ≤ 2147483647 ∧
    toI32 (toI32 (toI32 ((s.knobValueRaw i : Int) - (s.knobValueLow i : Int)))
        * (knob100Percent : Int))
      = ((s.knobValueRaw i : Int) - (s.knobValueLow i : Int)) * 32768 ∧
    knobPercentWide (s.knobValueRaw i) (s.knobValueLow i) (s.knobValueHigh i)
      = some (Int.tdiv (((s.knobValueRaw i : Int) - (s.knobValueLow i : Int)) * 32768)
          ((s.knobValueHigh i : Int) - (s.knobValueLow i : Int))) ∧
    ∃ s', normalizeKnob i s = some s' ∧
      (s'.knobPercent i : Int)
        = normalizeSpec (s.knobValueRaw i) (s.knobValueLow i) (s.knobValueHigh i) := by
  have hr := knobRange_of_lt _ _ hhigh hcal
  obtain ⟨p, hp, hval⟩ := normalizedPercent_exact _ _ _ hraw hhigh hcal
  obtain ⟨s', hs', hk⟩ := normalizeKnob_of_percent s i p hp
  refine ⟨by omega, by omega, by omega, by omega, ?_,
    knobPercentWide_exact _ _ _ hraw hhigh hcal, s', hs', ?_⟩
  · rw [toI32_of_fits ((s.knobValueRaw i : Int) - (s.knobValueLow i : Int)) (by omega) (by omega),
      toI32_of_fits ((s.knobValueRaw i : Int) - (s.knobValueLow i : Int)) (by omega) (by omega)]
    unfold knob100Percent
    push_cast
    exact toI32_of_fits _ (by omega) (by omega)
  · rw [hk, hval, clampPercent_eq_max_min]
    rfl

/-- Witness of C19 at a raw sample below the calibration range. -/
theorem normalizeKnob_matches_spec_witness :
    ∃ s', normalizeKnob 2 (readKnob 2 7 initialState) = some s' ∧
      (s'.knobPercent 2 : Int)
        = normalizeSpec ((readKnob 2 7 initialState).knobValueRaw 2)
            ((readKnob 2 7 initialState).knobValueLow 2)
            ((readKnob 2 7 initialState).knobValueHigh 2) :=
  (normalizeKnob_matches_spec (readKnob 2 7 initialState) 2
    (by decide) (by decide) (by decide)).2.2.2.2.2.2

/-! ## Wrap-around of the clock -/

/-- C20: the comparison of `every` is wrap-safe on `w`-bit clock values: when
`d < 2 ^ w` is the time elapsed since `last` and `now = (last + d) mod 2 ^ w`,
the unsigned difference `now - last` is `d`, so `every` fires exactly when
`d > intervalMillis`, also when `now < last` after a wrap. -/
theorem every_wrap_safe (w intervalMillis last d : Nat) (hlast : last < 2 ^ w)
    (hd : d < 2 ^ w) :
    subUnsigned w ((last + d) % 2 ^ w) last = d ∧
    ((every w intervalMillis last ((last + d) % 2 ^ w) ((last + d) % 2 ^ w)).1 = true
      ↔ d > intervalMillis) := by
  have hmod : (last + d) % 2 ^ w < 2 ^ w := Nat.mod_lt _ (by positivity)
  have hsub : subUnsigned w ((last + d) % 2 ^ w) last = d := by
    rw [subUnsigned_eq w _ last hmod hlast]
    rcases Nat.lt_or_ge (last + d) (2 ^ w) with h | h
    · rw [Nat.mod_eq_of_lt h, if_pos (by omega)]
      omega
    · have hm : (last + d) % 2 ^ w = last + d - 2 ^ w := by
        rw [Nat.mod_eq_sub_mod h, Nat.mod_eq_of_lt (by omega)]
      rw [hm, if_neg (by omega)]
      omega
  refine ⟨hsub, ?_⟩
  unfold every
  rw [hsub]
  split_ifs with h <;> simp <;> omega

/-- Witness of C20 on the 32-bit clock: 10 ms after `last = 4294967290` the
clock reads 4, and the timer with interval 2 fires. -/
theorem every_wrap_safe_witness :
    (4294967290 + 10) % 2 ^ 32 < 4294967290 ∧
    (every 32 2 4294967290 ((4294967290 + 10) % 2 ^ 32) ((4294967290 + 10) % 2 ^ 32)).1 = true :=
  ⟨by decide, (every_wrap_safe 32 2 4294967290 10 (by decide) (by decide)).2.mpr (by decide)⟩

end Knobs
